import Mathlib

/-!
Formal model of the `portfolio_updater` pipeline (sweslo17/asset-management).

The Python sources are shallowly embedded:

* `models.py`       → the record structures below. The float-valued fields
  (`close`, `usd_twd`, …) are modelled as `Rat`; no claim depends on
  floating-point arithmetic, only on equality of whole records.
* `main.py`         → the dedup filters `filter_new_prices` /
  `filter_new_rates` (named `_filter_new_prices` / `_filter_new_rates` in
  the source) and the pipeline `runMain`, which is modelled as a pure
  function from an environment (the values the external collaborators
  would return) to the trace of fetch/write calls the pipeline issues.
* `price_fetcher.py`, `rate_fetcher.py` → `download`, `download_single`,
  `rate_download` and the four public fetch functions, parametrised by an
  opaque provider (`yf.download`).  A raised provider exception is an
  `Except.error`; the per-ticker/whole-call `try/except` blocks become
  `match`es on that value.  Calendar-day arithmetic (`date.today() -
  timedelta(days=lookback)`) is modelled with dates as `Int` day numbers
  and an abstract formatting function `iso : Int → String` standing for
  `date.isoformat()`.
* `sheets_client.py` → `get_existing_prices`, `get_existing_rates` and
  `update_metadata` over explicit row lists (the worksheet contents).
-/

namespace PortfolioUpdater

/-- `models.PriceRecord`: one closing price for a ticker on a date. -/
structure PriceRecord where
  ticker : String
  date : String
  close : Rat
deriving DecidableEq, Repr

/-- `models.ExchangeRateRecord`: one USD/TWD rate on a date. -/
structure ExchangeRateRecord where
  date : String
  usd_twd : Rat
deriving DecidableEq, Repr

/-- `models.Investment.market`: the `Literal["TW", "US"]` field. -/
inductive Market where
  | TW
  | US
deriving DecidableEq, Repr

/-- `models.Investment`: one investment batch row. -/
structure Investment where
  id : String
  batch_id : String
  ticker : String
  name : String
  market : Market
  date : String
  units : Rat
  price_per_unit : Rat
  exchange_rate : Rat
  fees : Rat
  tags : String
deriving DecidableEq, Repr

/-- `main._filter_new_prices`: keep only records whose (ticker, date) pair
is not yet in `existing` (a Python `set`, modelled as a `Finset`). -/
def filter_new_prices (records : List PriceRecord)
    (existing : Finset (String × String)) : List PriceRecord :=
  records.filter (fun r => decide ((r.ticker, r.date) ∉ existing))

/-- `main._filter_new_rates`: keep only records whose date is not yet in
`existing`. -/
def filter_new_rates (records : List ExchangeRateRecord)
    (existing : Finset String) : List ExchangeRateRecord :=
  records.filter (fun r => decide (r.date ∉ existing))

/-- Spec-level restatement of the price dedup ("the sublist of R consisting
of records whose (ticker, date) key is not in E, in R's original relative
order"), written as a direct recursion to compare with the code's filter. -/
def keepNewPricesSpec (existing : Finset (String × String)) :
    List PriceRecord → List PriceRecord
  | [] => []
  | r :: rs =>
      if (r.ticker, r.date) ∈ existing then keepNewPricesSpec existing rs
      else r :: keepNewPricesSpec existing rs

/-- Spec-level restatement of the rate dedup, keyed by date. -/
def keepNewRatesSpec (existing : Finset String) :
    List ExchangeRateRecord → List ExchangeRateRecord
  | [] => []
  | r :: rs =>
      if r.date ∈ existing then keepNewRatesSpec existing rs
      else r :: keepNewRatesSpec existing rs

/-- Insert a string into a sorted list (helper for `sortStrings`). -/
def insertSorted (x : String) : List String → List String
  | [] => [x]
  | y :: ys => if x ≤ y then x :: y :: ys else y :: insertSorted x ys

/-- Insertion sort on strings, modelling Python's `sorted` on a set of
strings (ascending lexicographic order). -/
def sortStrings : List String → List String
  | [] => []
  | x :: xs => insertSorted x (sortStrings xs)

/-- `main.main` step 2: `sorted({inv.ticker for inv in investments})` —
the set dedups, `sorted` orders ascending. -/
def uniqueTickers (investments : List Investment) : List String :=
  sortStrings (investments.map (fun inv => inv.ticker)).dedup

/-- `main.main` step 2: `min(inv.date for inv in investments)`, defined on
a nonempty list as a fold of the binary minimum. -/
def earliestDate (inv : Investment) (rest : List Investment) : String :=
  (rest.map (fun i => i.date)).foldl min inv.date

/-- The two ways the pipeline invokes a fetcher: `fetch_historical_*`
with a start date, or `fetch_recent_*` with a day count. -/
inductive FetchMode where
  | historical (startDate : String)
  | recent (days : Nat)
deriving DecidableEq, Repr

/-- One observable call the pipeline makes on its collaborators (fetchers
and sheets client), in program order. -/
inductive Event where
  | fetchPricesCall (mode : FetchMode) (tickers : List String)
  | fetchRatesCall (mode : FetchMode)
  | appendPricesCall (records : List PriceRecord)
  | appendRatesCall (records : List ExchangeRateRecord)
  | updateMetadataCall (key value : String)
deriving DecidableEq, Repr

/-- The values the pipeline's collaborators return: the investments sheet,
the two existing-key sets, the fetchers' results as functions of the
invocation mode, and the UTC timestamp taken at step 7. -/
structure Env where
  investments : List Investment
  existingPrices : Finset (String × String)
  existingRates : Finset String
  fetchPrices : FetchMode → List String → List PriceRecord
  fetchRates : FetchMode → List ExchangeRateRecord
  timestamp : String

/-- `main.main`: the pipeline, as the trace of fetch/write calls it issues.
Steps follow the source: empty-investments early return; unique tickers and
earliest date; backfill branch; dedup; two appends; metadata upsert. -/
def runMain (backfill : Bool) (env : Env) : List Event :=
  match env.investments with
  | [] => []
  | inv :: rest =>
      let tickers := uniqueTickers (inv :: rest)
      let earliest := earliestDate inv rest
      let mode := if backfill then FetchMode.historical earliest
        else FetchMode.recent 5
      let rawPrices := env.fetchPrices mode tickers
      let rawRates := env.fetchRates mode
      let newPrices := filter_new_prices rawPrices env.existingPrices
      let newRates := filter_new_rates rawRates env.existingRates
      [Event.fetchPricesCall mode tickers, Event.fetchRatesCall mode,
       Event.appendPricesCall newPrices, Event.appendRatesCall newRates,
       Event.updateMetadataCall "last_update" env.timestamp]

/-- One row of the provider's (`yf.download`) response after selecting the
`Close` column: the index date (already formatted as `idx.date().isoformat()`
would) and the close value, `none` standing for a NaN dropped by `dropna`. -/
structure ProviderRow where
  date : String
  close : Option Rat
deriving DecidableEq, Repr

/-- pandas `Series.tail(n)`: the last `n` elements (all of them when the
series is shorter). -/
def takeLast {α : Type} (n : Nat) (l : List α) : List α :=
  l.drop (l.length - n)

/-- `price_fetcher._download_single`: one provider call for one ticker.
A provider exception propagates (`Except.error`); an empty frame yields
`[]`; otherwise drop NaN closes, trim to the last `tail` rows when given,
and build `PriceRecord`s. -/
def download_single (provider : String → String → Except String (List ProviderRow))
    (ticker : String) (start : String) (tail : Option Nat) :
    Except String (List PriceRecord) :=
  match provider ticker start with
  | Except.error e => Except.error e
  | Except.ok data =>
      if data = [] then Except.ok []
      else
        let close_series :=
          data.filterMap (fun row => row.close.map (fun c => (row.date, c)))
        let trimmed := match tail with
          | some n => takeLast n close_series
          | none => close_series
        Except.ok (trimmed.map
          (fun p => { ticker := ticker, date := p.1, close := p.2 }))

/-- `price_fetcher._download`: loop over the tickers, catching (and
skipping) any per-ticker failure.  The second component is the log of
provider calls made, one `(ticker, start)` per loop iteration. -/
def download (provider : String → String → Except String (List ProviderRow))
    (tickers : List String) (start : String) (tail : Option Nat) :
    List PriceRecord × List (String × String) :=
  match tickers with
  | [] => ([], [])
  | t :: ts =>
      let rest := download provider ts start tail
      match download_single provider t start tail with
      | Except.ok recs => (recs ++ rest.1, (t, start) :: rest.2)
      | Except.error _ => (rest.1, (t, start) :: rest.2)

/-- `price_fetcher.fetch_recent_prices`: lookback window of `days * 3`
calendar days ending today, trimmed to the last `days` rows per ticker. -/
def fetch_recent_prices (provider : String → String → Except String (List ProviderRow))
    (iso : Int → String) (today : Int) (tickers : List String) (days : Nat) :
    List PriceRecord × List (String × String) :=
  let lookback : Int := (days : Int) * 3
  let start := iso (today - lookback)
  download provider tickers start (some days)

/-- `price_fetcher.fetch_historical_prices`: full series from `start_date`,
no trim. -/
def fetch_historical_prices
    (provider : String → String → Except String (List ProviderRow))
    (tickers : List String) (start_date : String) :
    List PriceRecord × List (String × String) :=
  download provider tickers start_date none

/-- `rate_fetcher._USDTWD_TICKER`. -/
def USDTWD_TICKER : String := "USDTWD=X"

/-- `rate_fetcher._download`: a single provider call for the fixed USD/TWD
symbol; a provider exception is caught and yields `[]`.  The second
component is the provider call log (always exactly one call). -/
def rate_download (provider : String → String → Except String (List ProviderRow))
    (start : String) (tail : Option Nat) :
    List ExchangeRateRecord × List (String × String) :=
  match provider USDTWD_TICKER start with
  | Except.error _ => ([], [(USDTWD_TICKER, start)])
  | Except.ok data =>
      if data = [] then ([], [(USDTWD_TICKER, start)])
      else
        let close_series :=
          data.filterMap (fun row => row.close.map (fun c => (row.date, c)))
        let trimmed := match tail with
          | some n => takeLast n close_series
          | none => close_series
        (trimmed.map (fun p => { date := p.1, usd_twd := p.2 }),
         [(USDTWD_TICKER, start)])

/-- `rate_fetcher.fetch_recent_rates`. -/
def fetch_recent_rates
    (provider : String → String → Except String (List ProviderRow))
    (iso : Int → String) (today : Int) (days : Nat) :
    List ExchangeRateRecord × List (String × String) :=
  let lookback : Int := (days : Int) * 3
  let start := iso (today - lookback)
  rate_download provider start (some days)

/-- `rate_fetcher.fetch_historical_rates`. -/
def fetch_historical_rates
    (provider : String → String → Except String (List ProviderRow))
    (start_date : String) : List ExchangeRateRecord × List (String × String) :=
  rate_download provider start_date none

/-- `main.main` step 4 seen from the price fetcher: which fetch function a
given `FetchMode` stands for. -/
def dispatchFetchPrices
    (provider : String → String → Except String (List ProviderRow))
    (iso : Int → String) (today : Int) :
    FetchMode → List String → List PriceRecord
  | FetchMode.historical s, tks => (fetch_historical_prices provider tks s).1
  | FetchMode.recent n, tks => (fetch_recent_prices provider iso today tks n).1

/-- A provider whose every call succeeds with a fixed three-row frame
(middle close NaN), used to instantiate universally quantified theorems. -/
def testRows : List ProviderRow :=
  [{ date := "2023-01-02", close := some 10 },
   { date := "2023-01-03", close := none },
   { date := "2023-01-04", close := some 11 }]

def testProvider : String → String → Except String (List ProviderRow) :=
  fun _ _ => Except.ok testRows

/-- A provider that raises for ticker "BAD" and succeeds otherwise. -/
def testProviderBad : String → String → Except String (List ProviderRow) :=
  fun t _ => if t = "BAD" then Except.error "boom" else Except.ok testRows

/-- A provider whose every call raises. -/
def testProviderErr : String → String → Except String (List ProviderRow) :=
  fun _ _ => Except.error "boom"

def testIso : Int → String := fun i => toString i

/-- One data row of the `prices` sheet as `get_all_records` returns it:
the cell values of the `ticker`, `date` and `close` columns.  Cells are
modelled as the strings `str(...)` yields; a blank cell is `""` (Python
truthiness of a string is non-emptiness). -/
structure PriceSheetRow where
  ticker : String
  date : String
  close : String
deriving DecidableEq, Repr

/-- One data row of the `exchange_rates` sheet. -/
structure RateSheetRow where
  date : String
  usd_twd : String
deriving DecidableEq, Repr

/-- `sheets_client.get_existing_prices`: the set of (ticker, date) pairs of
the rows whose ticker and date cells are both non-blank. -/
def get_existing_prices (rows : List PriceSheetRow) :
    Finset (String × String) :=
  ((rows.filter (fun row => !(row.ticker == "") && !(row.date == ""))).map
    (fun row => (row.ticker, row.date))).toFinset

/-- `sheets_client.get_existing_rates`: the set of date strings of the rows
whose date cell is non-blank. -/
def get_existing_rates (rows : List RateSheetRow) : Finset String :=
  ((rows.filter (fun row => !(row.date == ""))).map
    (fun row => row.date)).toFinset

/-- `sheets_client.update_metadata` on the metadata sheet's data rows
(header row excluded), each a (key cell, value cell) pair: scan rows in
order; the first row whose key cell equals `key` gets its value cell
(column B) overwritten and the scan stops; if no row matches, a new
(key, value) row is appended at the end. -/
def update_metadata : List (String × String) → String → String →
    List (String × String)
  | [], key, value => [(key, value)]
  | (k, v) :: rest, key, value =>
      if k == key then (k, value) :: rest
      else (k, v) :: update_metadata rest key value

/-- A prices sheet with one complete row and one blank-date row. -/
def testPriceRows : List PriceSheetRow :=
  [{ ticker := "AAPL", date := "2023-01-03", close := "150.0" },
   { ticker := "MSFT", date := "", close := "1" }]

/-- An exchange-rates sheet with one complete row and one blank-date row. -/
def testRateRows : List RateSheetRow :=
  [{ date := "2023-01-03", usd_twd := "30.1" },
   { date := "", usd_twd := "30.2" }]

theorem filter_new_prices_eq_spec (records : List PriceRecord)
    (existing : Finset (String × String)) :
    filter_new_prices records existing = keepNewPricesSpec existing records := by
  induction records with
  | nil => rfl
  | cons r rs ih =>
      by_cases h : (r.ticker, r.date) ∈ existing <;>
        simp [filter_new_prices, keepNewPricesSpec, h] at ih ⊢ <;>
        exact ih

theorem filter_new_rates_eq_spec (records : List ExchangeRateRecord)
    (existing : Finset String) :
    filter_new_rates records existing = keepNewRatesSpec existing records := by
  induction records with
  | nil => rfl
  | cons r rs ih =>
      by_cases h : r.date ∈ existing <;>
        simp [filter_new_rates, keepNewRatesSpec, h] at ih ⊢ <;>
        exact ih

/-- C1: `_filter_new_prices(R, E)` is exactly the sublist of `R` of records
whose (ticker, date) key is not in `E`, in `R`'s original relative order
(so in particular it is `[]` on `[]`), and likewise `_filter_new_rates`
for rate records keyed by date.  The "exactly the sublist … in original
order" part is the equality with the spec-level recursion; the sublist and
membership characterisations are corollaries stated alongside. -/
theorem dedup_is_set_difference (R : List PriceRecord)
    (E : Finset (String × String)) (S : List ExchangeRateRecord)
    (F : Finset String) :
    filter_new_prices R E = keepNewPricesSpec E R ∧
    List.Sublist (filter_new_prices R E) R ∧
    (∀ r, r ∈ filter_new_prices R E ↔ r ∈ R ∧ (r.ticker, r.date) ∉ E) ∧
    filter_new_prices [] E = [] ∧
    filter_new_rates S F = keepNewRatesSpec F S ∧
    List.Sublist (filter_new_rates S F) S ∧
    (∀ r, r ∈ filter_new_rates S F ↔ r ∈ S ∧ r.date ∉ F) ∧
    filter_new_rates [] F = [] := by
  refine ⟨filter_new_prices_eq_spec R E, List.filter_sublist R, ?_, rfl,
    filter_new_rates_eq_spec S F, List.filter_sublist S, ?_, rfl⟩
  · intro r
    simp [filter_new_prices]
  · intro r
    simp [filter_new_rates]

theorem foldl_min_mem {α : Type} [LinearOrder α] (l : List α) :
    ∀ a : α, l.foldl min a ∈ a :: l := by
  induction l with
  | nil => intro a; simp
  | cons x xs ih =>
      intro a
      have h := ih (min a x)
      rcases List.mem_cons.mp h with h1 | h1
      · rcases min_choice a x with hc | hc <;> rw [hc] at h1 <;>
          simp [List.foldl_cons, h1, hc]
      · simp [List.foldl_cons]
        right; right
        rw [← List.foldl_cons] at h1 ⊢
        exact h1

theorem foldl_min_le {α : Type} [LinearOrder α] (l : List α) :
    ∀ a b : α, b ∈ a :: l → l.foldl min a ≤ b := by
  induction l with
  | nil =>
      intro a b hb
      simp at hb
      simp [hb]
  | cons x xs ih =>
      intro a b hb
      rcases List.mem_cons.mp hb with h1 | h1
      · calc (x :: xs).foldl min a ≤ min a x :=
              ih (min a x) (min a x) (List.mem_cons_self _ _)
          _ ≤ a := min_le_left a x
          _ = b := h1.symm
      · rcases List.mem_cons.mp h1 with h2 | h2
        · calc (x :: xs).foldl min a ≤ min a x :=
                ih (min a x) (min a x) (List.mem_cons_self _ _)
            _ ≤ x := min_le_right a x
            _ = b := h2.symm
        · exact ih (min a x) b (List.mem_cons_of_mem _ h2)

/-- C2: with nonempty investments, the backfill branch invokes both
fetchers in historical mode starting at the earliest investment date (the
minimum of the investments' date strings), and the incremental branch
invokes both in recent mode with days = 5. -/
theorem backfill_branch (env : Env) (inv : Investment)
    (rest : List Investment) (h : env.investments = inv :: rest) :
    (runMain true env).take 2 =
      [Event.fetchPricesCall (FetchMode.historical (earliestDate inv rest))
        (uniqueTickers (inv :: rest)),
       Event.fetchRatesCall (FetchMode.historical (earliestDate inv rest))] ∧
    (runMain false env).take 2 =
      [Event.fetchPricesCall (FetchMode.recent 5) (uniqueTickers (inv :: rest)),
       Event.fetchRatesCall (FetchMode.recent 5)] ∧
    earliestDate inv rest ∈ (inv :: rest).map (fun i => i.date) ∧
    (∀ d ∈ (inv :: rest).map (fun i => i.date), earliestDate inv rest ≤ d) := by
  refine ⟨?_, ?_, ?_, ?_⟩
  · simp [runMain, h]
  · simp [runMain, h]
  · simpa [earliestDate] using foldl_min_mem ((rest.map (fun i => i.date))) inv.date
  · intro d hd
    exact foldl_min_le (rest.map (fun i => i.date)) inv.date d (by simpa using hd)

/-- A closed instance of `backfill_branch` at a one-investment environment. -/
theorem backfill_branch_witness :
    (let inv : Investment :=
      { id := "1", batch_id := "b1", ticker := "AAPL", name := "Apple",
        market := Market.US, date := "2023-01-03", units := 1,
        price_per_unit := 150, exchange_rate := 30, fees := 0, tags := "" }
     let env : Env :=
      { investments := [inv], existingPrices := ∅, existingRates := ∅,
        fetchPrices := fun _ _ => [], fetchRates := fun _ => [],
        timestamp := "2023-01-04T00:00:00Z" }
     (runMain true env).take 2 =
       [Event.fetchPricesCall (FetchMode.historical (earliestDate inv []))
         (uniqueTickers [inv]),
        Event.fetchRatesCall (FetchMode.historical (earliestDate inv []))] ∧
     (runMain false env).take 2 =
       [Event.fetchPricesCall (FetchMode.recent 5) (uniqueTickers [inv]),
        Event.fetchRatesCall (FetchMode.recent 5)] ∧
     earliestDate inv [] ∈ ([inv]).map (fun i => i.date) ∧
     (∀ d ∈ ([inv]).map (fun i => i.date), earliestDate inv [] ≤ d)) :=
  backfill_branch _ _ [] rfl

/-- C7: when the investments sheet is empty the pipeline returns at once:
no fetch call, no append, no metadata update (an empty trace). -/
theorem empty_investments_noop (backfill : Bool)
    (ep : Finset (String × String)) (er : Finset String)
    (fp : FetchMode → List String → List PriceRecord)
    (fr : FetchMode → List ExchangeRateRecord) (ts : String) :
    runMain backfill
      { investments := [], existingPrices := ep, existingRates := er,
        fetchPrices := fp, fetchRates := fr, timestamp := ts } = [] :=
  rfl

theorem takeLast_length_le {α : Type} (n : Nat) (l : List α) :
    (takeLast n l).length ≤ n := by
  simp [takeLast]
  omega

theorem download_single_ok_ticker
    (provider : String → String → Except String (List ProviderRow))
    (t start : String) (tail : Option Nat) (recs : List PriceRecord)
    (h : download_single provider t start tail = Except.ok recs) :
    ∀ r ∈ recs, r.ticker = t := by
  intro r hr
  unfold download_single at h
  cases hp : provider t start with
  | error e => rw [hp] at h; exact absurd h (by simp)
  | ok data =>
      rw [hp] at h
      by_cases hd : data = []
      · simp [hd] at h
        rw [h] at hr
        simp at hr
      · simp only [hd, if_false] at h
        rw [Except.ok.injEq] at h
        rw [← h] at hr
        rw [List.mem_map] at hr
        obtain ⟨p, _, hpr⟩ := hr
        rw [← hpr]

theorem download_single_ok_length
    (provider : String → String → Except String (List ProviderRow))
    (t start : String) (n : Nat) (recs : List PriceRecord)
    (h : download_single provider t start (some n) = Except.ok recs) :
    recs.length ≤ n := by
  unfold download_single at h
  cases hp : provider t start with
  | error e => rw [hp] at h; exact absurd h (by simp)
  | ok data =>
      rw [hp] at h
      by_cases hd : data = []
      · simp [hd] at h
        simp [h]
      · simp only [hd, if_false] at h
        rw [Except.ok.injEq] at h
        rw [← h, List.length_map]
        exact takeLast_length_le n _

theorem download_mem_ticker
    (provider : String → String → Except String (List ProviderRow))
    (tickers : List String) (start : String) (tail : Option Nat) :
    ∀ r ∈ (download provider tickers start tail).1, r.ticker ∈ tickers := by
  induction tickers with
  | nil => intro r hr; simp [download] at hr
  | cons t ts ih =>
      intro r hr
      simp only [download] at hr
      cases hsingle : download_single provider t start tail with
      | ok recs =>
          rw [hsingle] at hr
          simp only [List.mem_append] at hr
          rcases hr with hr | hr
          · rw [download_single_ok_ticker provider t start tail recs hsingle r hr]
            exact List.mem_cons_self t ts
          · exact List.mem_cons_of_mem t (ih r hr)
      | error e =>
          rw [hsingle] at hr
          exact List.mem_cons_of_mem t (ih r hr)

theorem download_calls
    (provider : String → String → Except String (List ProviderRow))
    (tickers : List String) (start : String) (tail : Option Nat) :
    (download provider tickers start tail).2 =
      tickers.map (fun t => (t, start)) := by
  induction tickers with
  | nil => rfl
  | cons t ts ih =>
      simp only [download, List.map_cons]
      cases download_single provider t start tail <;> simp [ih]

theorem download_count_le
    (provider : String → String → Except String (List ProviderRow))
    (tickers : List String) (start : String) (n : Nat) (u : String) :
    tickers.Nodup →
    ((download provider tickers start (some n)).1.filter
      (fun r => r.ticker == u)).length ≤ n := by
  induction tickers with
  | nil => intro _; simp [download]
  | cons t ts ih =>
      intro hnd
      obtain ⟨hts, hnd2⟩ := List.nodup_cons.mp hnd
      simp only [download]
      cases hsingle : download_single provider t start (some n) with
      | error e => exact ih hnd2
      | ok recs =>
          simp only [List.filter_append, List.length_append]
          by_cases hu : u = t
          · have hrest : (download provider ts start (some n)).1.filter
                (fun r => r.ticker == u) = [] := by
              rw [List.filter_eq_nil_iff]
              intro r hr
              have hm := download_mem_ticker provider ts start (some n) r hr
              simp only [beq_iff_eq]
              intro heq
              rw [heq, hu] at hm
              exact hts hm
            rw [hrest]
            simp only [List.length_nil, Nat.add_zero]
            calc (recs.filter (fun r => r.ticker == u)).length
                ≤ recs.length := List.length_filter_le _ recs
              _ ≤ n := download_single_ok_length provider t start n recs hsingle
          · have hrecs : recs.filter (fun r => r.ticker == u) = [] := by
              rw [List.filter_eq_nil_iff]
              intro r hr
              have := download_single_ok_ticker provider t start (some n) recs
                hsingle r hr
              simp only [beq_iff_eq, this]
              exact fun heq => hu heq.symm
            rw [hrecs]
            simpa using ih hnd2

theorem rate_download_length_le
    (provider : String → String → Except String (List ProviderRow))
    (start : String) (n : Nat) :
    (rate_download provider start (some n)).1.length ≤ n := by
  unfold rate_download
  cases provider USDTWD_TICKER start with
  | error e => simp
  | ok data =>
      by_cases hd : data = [] <;>
        simp [hd, takeLast_length_le]

theorem rate_download_calls
    (provider : String → String → Except String (List ProviderRow))
    (start : String) (tail : Option Nat) :
    (rate_download provider start tail).2 = [(USDTWD_TICKER, start)] := by
  unfold rate_download
  cases provider USDTWD_TICKER start with
  | error e => rfl
  | ok data => by_cases hd : data = [] <;> simp [hd]

theorem rate_download_error
    (provider : String → String → Except String (List ProviderRow))
    (start : String) (tail : Option Nat) (e : String)
    (h : provider USDTWD_TICKER start = Except.error e) :
    (rate_download provider start tail).1 = [] := by
  unfold rate_download
  rw [h]

/-- C3: a recent-mode fetch for N days calls the provider with a window
starting exactly at today − 3N calendar days — for every ticker, and for
the single USD/TWD symbol — and returns at most N records per ticker
(at most N rate records in total), trimmed after download. -/
theorem recent_fetch_window
    (provider : String → String → Except String (List ProviderRow))
    (iso : Int → String) (today : Int) (tickers : List String) (days : Nat)
    (hnd : tickers.Nodup) :
    (fetch_recent_prices provider iso today tickers days).2 =
      tickers.map (fun t => (t, iso (today - 3 * (days : Int)))) ∧
    (∀ t : String,
      ((fetch_recent_prices provider iso today tickers days).1.filter
        (fun r => r.ticker == t)).length ≤ days) ∧
    (fetch_recent_rates provider iso today days).2 =
      [(USDTWD_TICKER, iso (today - 3 * (days : Int)))] ∧
    (fetch_recent_rates provider iso today days).1.length ≤ days := by
  have h3 : today - (days : Int) * 3 = today - 3 * (days : Int) := by ring
  refine ⟨?_, ?_, ?_, ?_⟩
  · simp only [fetch_recent_prices, h3]
    exact download_calls provider tickers (iso (today - 3 * (days : Int))) (some days)
  · intro t
    exact download_count_le provider tickers _ days t hnd
  · simp only [fetch_recent_rates, h3]
    exact rate_download_calls provider (iso (today - 3 * (days : Int))) (some days)
  · exact rate_download_length_le provider _ days

/-- A closed instance of `recent_fetch_window` at a concrete provider. -/
theorem recent_fetch_window_witness :
    (["AAPL"] : List String).Nodup ∧
    ((fetch_recent_prices testProvider testIso 0 ["AAPL"] 1).2 =
      (["AAPL"] : List String).map
        (fun t => (t, testIso (0 - 3 * ((1 : Nat) : Int)))) ∧
    (∀ t : String,
      ((fetch_recent_prices testProvider testIso 0 ["AAPL"] 1).1.filter
        (fun r => r.ticker == t)).length ≤ 1) ∧
    (fetch_recent_rates testProvider testIso 0 1).2 =
      [(USDTWD_TICKER, testIso (0 - 3 * ((1 : Nat) : Int)))] ∧
    (fetch_recent_rates testProvider testIso 0 1).1.length ≤ 1) :=
  ⟨by decide, recent_fetch_window testProvider testIso 0 ["AAPL"] 1 (by decide)⟩

/-- C5: a failure of the whole USD/TWD provider call makes both
`fetch_recent_rates` and `fetch_historical_rates` return the empty list
(the failure is caught, never propagated to the caller). -/
theorem rate_fetch_failure_empty
    (provider : String → String → Except String (List ProviderRow))
    (iso : Int → String) (today : Int) (days : Nat) (start_date : String)
    (e₁ e₂ : String)
    (h₁ : provider USDTWD_TICKER (iso (today - (days : Int) * 3)) =
      Except.error e₁)
    (h₂ : provider USDTWD_TICKER start_date = Except.error e₂) :
    (fetch_recent_rates provider iso today days).1 = [] ∧
    (fetch_historical_rates provider start_date).1 = [] :=
  ⟨rate_download_error provider _ (some days) e₁ h₁,
   rate_download_error provider start_date none e₂ h₂⟩

/-- A closed instance of `rate_fetch_failure_empty` at an always-failing
provider. -/
theorem rate_fetch_failure_empty_witness :
    testProviderErr USDTWD_TICKER (testIso (0 - ((1 : Nat) : Int) * 3)) =
      Except.error "boom" ∧
    testProviderErr USDTWD_TICKER "2023-01-01" = Except.error "boom" ∧
    ((fetch_recent_rates testProviderErr testIso 0 1).1 = [] ∧
     (fetch_historical_rates testProviderErr "2023-01-01").1 = []) :=
  ⟨rfl, rfl,
   rate_fetch_failure_empty testProviderErr testIso 0 1 "2023-01-01"
     "boom" "boom" rfl rfl⟩

/-- C6: a ticker whose download raises is caught and skipped — the price
download returns exactly the concatenation of the other tickers' records —
and a pipeline run using that fetcher still issues its metadata upsert as
its final call. -/
theorem failing_ticker_skipped
    (provider : String → String → Except String (List ProviderRow))
    (ts1 ts2 : List String) (bad : String) (start : String)
    (tail : Option Nat) (e : String)
    (hbad : provider bad start = Except.error e) :
    (download provider (ts1 ++ bad :: ts2) start tail).1 =
      (download provider ts1 start tail).1 ++
        (download provider ts2 start tail).1 ∧
    (∀ (iso : Int → String) (today : Int) (backfill : Bool)
        (inv : Investment) (rest : List Investment)
        (ep : Finset (String × String)) (er : Finset String)
        (fr : FetchMode → List ExchangeRateRecord) (ts : String),
      (runMain backfill
        { investments := inv :: rest, existingPrices := ep,
          existingRates := er,
          fetchPrices := dispatchFetchPrices provider iso today,
          fetchRates := fr, timestamp := ts }).getLast? =
        some (Event.updateMetadataCall "last_update" ts)) := by
  constructor
  · induction ts1 with
    | nil =>
        have hb : download_single provider bad start tail = Except.error e := by
          unfold download_single
          rw [hbad]
        simp only [List.nil_append, download, hb]
    | cons t ts ih =>
        simp only [List.cons_append, download]
        cases download_single provider t start tail <;>
          simp [ih, List.append_assoc]
  · intro iso today backfill inv rest ep er fr ts
    cases backfill <;> rfl

/-- A closed instance of `failing_ticker_skipped`: "BAD" fails between
"AAPL" and "MSFT". -/
theorem failing_ticker_skipped_witness :
    testProviderBad "BAD" "2023-01-01" = Except.error "boom" ∧
    ((download testProviderBad (["AAPL"] ++ "BAD" :: ["MSFT"])
        "2023-01-01" none).1 =
      (download testProviderBad ["AAPL"] "2023-01-01" none).1 ++
        (download testProviderBad ["MSFT"] "2023-01-01" none).1 ∧
    (∀ (iso : Int → String) (today : Int) (backfill : Bool)
        (inv : Investment) (rest : List Investment)
        (ep : Finset (String × String)) (er : Finset String)
        (fr : FetchMode → List ExchangeRateRecord) (ts : String),
      (runMain backfill
        { investments := inv :: rest, existingPrices := ep,
          existingRates := er,
          fetchPrices := dispatchFetchPrices testProviderBad iso today,
          fetchRates := fr, timestamp := ts }).getLast? =
        some (Event.updateMetadataCall "last_update" ts))) :=
  ⟨rfl, failing_ticker_skipped testProviderBad ["AAPL"] ["MSFT"] "BAD"
    "2023-01-01" none "boom" rfl⟩

/-- C9: fetching with an empty ticker list returns the empty record list
and makes zero provider calls, in both recent and historical mode. -/
theorem empty_ticker_fetch_no_calls
    (provider : String → String → Except String (List ProviderRow))
    (iso : Int → String) (today : Int) (days : Nat)
    (start_date start : String) (tail : Option Nat) :
    download provider [] start tail = ([], []) ∧
    fetch_recent_prices provider iso today [] days = ([], []) ∧
    fetch_historical_prices provider [] start_date = ([], []) :=
  ⟨rfl, rfl, rfl⟩

theorem update_metadata_filter (sheet : List (String × String))
    (key value : String)
    (h : (sheet.filter (fun r => r.1 == key)).length ≤ 1) :
    (update_metadata sheet key value).filter (fun r => r.1 == key) =
      [(key, value)] := by
  induction sheet with
  | nil => simp [update_metadata]
  | cons r rest ih =>
      obtain ⟨k, v⟩ := r
      by_cases hk : k = key
      · subst hk
        have hrest : rest.filter (fun r => r.1 == k) = [] := by
          rw [List.filter_cons_of_pos (by simp)] at h
          simp only [List.length_cons] at h
          have : (rest.filter (fun r => r.1 == k)).length = 0 := by omega
          exact List.length_eq_zero.mp this
        simp [update_metadata, List.filter_cons, hrest]
      · have h2 : (rest.filter (fun r => r.1 == key)).length ≤ 1 := by
          rw [List.filter_cons_of_neg (by simp [hk])] at h
          exact h
        simp only [update_metadata, beq_iff_eq, hk, if_false]
        rw [List.filter_cons_of_neg (by simp [hk])]
        exact ih h2

/-- C4: starting from a metadata sheet with at most one row for the key
"last_update", two successive `update_metadata("last_update", ·)` calls
leave exactly one "last_update" row, holding the second value. -/
theorem metadata_upsert (sheet : List (String × String)) (v₁ v₂ : String)
    (h : (sheet.filter (fun r => r.1 == "last_update")).length ≤ 1) :
    (update_metadata (update_metadata sheet "last_update" v₁)
        "last_update" v₂).filter (fun r => r.1 == "last_update") =
      [("last_update", v₂)] := by
  apply update_metadata_filter
  rw [update_metadata_filter sheet "last_update" v₁ h]
  simp

/-- A closed instance of `metadata_upsert` at a two-row sheet. -/
theorem metadata_upsert_witness :
    (([("schema_version", "1"), ("last_update", "old")] :
        List (String × String)).filter
      (fun r => r.1 == "last_update")).length ≤ 1 ∧
    (update_metadata
        (update_metadata [("schema_version", "1"), ("last_update", "old")]
          "last_update" "v1") "last_update" "v2").filter
      (fun r => r.1 == "last_update") = [("last_update", "v2")] :=
  ⟨by decide,
   metadata_upsert [("schema_version", "1"), ("last_update", "old")]
     "v1" "v2" (by decide)⟩

/-- C10: every key in the existing-price set has a non-blank ticker and a
non-blank date, every key in the existing-rate set is a non-blank date, and
conversely every non-blank row contributes its key — rows with a blank
ticker or date cell are exactly the ones excluded. -/
theorem existing_keys_nonblank (prows : List PriceSheetRow)
    (rrows : List RateSheetRow) :
    (∀ k ∈ get_existing_prices prows, k.1 ≠ "" ∧ k.2 ≠ "" ∧
      ∃ row ∈ prows, row.ticker = k.1 ∧ row.date = k.2) ∧
    (∀ row ∈ prows, row.ticker ≠ "" → row.date ≠ "" →
      (row.ticker, row.date) ∈ get_existing_prices prows) ∧
    (∀ d ∈ get_existing_rates rrows, d ≠ "" ∧
      ∃ row ∈ rrows, row.date = d) ∧
    (∀ row ∈ rrows, row.date ≠ "" → row.date ∈ get_existing_rates rrows) := by
  refine ⟨?_, ?_, ?_, ?_⟩
  · intro k hk
    simp only [get_existing_prices, List.mem_toFinset, List.mem_map,
      List.mem_filter, Bool.and_eq_true, Bool.not_eq_eq_eq_not, Bool.not_true,
      beq_eq_false_iff_ne] at hk
    obtain ⟨row, ⟨hrow, ht, hd⟩, hkey⟩ := hk
    refine ⟨?_, ?_, row, hrow, ?_, ?_⟩ <;> simp [← hkey, ht, hd]
  · intro row hrow ht hd
    simp only [get_existing_prices, List.mem_toFinset, List.mem_map,
      List.mem_filter]
    exact ⟨row, ⟨hrow, by simp [ht, hd]⟩, rfl⟩
  · intro d hd
    simp only [get_existing_rates, List.mem_toFinset, List.mem_map,
      List.mem_filter, Bool.not_eq_eq_eq_not, Bool.not_true,
      beq_eq_false_iff_ne] at hd
    obtain ⟨row, ⟨hrow, hne⟩, hkey⟩ := hd
    exact ⟨by simp [← hkey, hne], row, hrow, hkey⟩
  · intro row hrow hne
    simp only [get_existing_rates, List.mem_toFinset, List.mem_map,
      List.mem_filter]
    exact ⟨row, ⟨hrow, by simp [hne]⟩, rfl⟩

/-- A closed instance of `existing_keys_nonblank`: a blank-date price row
and a blank-date rate row are excluded, the complete rows kept. -/
theorem existing_keys_nonblank_witness :
    (∀ k ∈ get_existing_prices testPriceRows, k.1 ≠ "" ∧ k.2 ≠ "" ∧
      ∃ row ∈ testPriceRows, row.ticker = k.1 ∧ row.date = k.2) ∧
    (∀ row ∈ testPriceRows, row.ticker ≠ "" → row.date ≠ "" →
      (row.ticker, row.date) ∈ get_existing_prices testPriceRows) ∧
    (∀ d ∈ get_existing_rates testRateRows, d ≠ "" ∧
      ∃ row ∈ testRateRows, row.date = d) ∧
    (∀ row ∈ testRateRows, row.date ≠ "" →
      row.date ∈ get_existing_rates testRateRows) :=
  existing_keys_nonblank testPriceRows testRateRows

/-- C8: the dedup filters are idempotent — filtering an already-filtered
list against the same existing-key set returns it unchanged. -/
theorem dedup_idempotent (R : List PriceRecord)
    (E : Finset (String × String)) (S : List ExchangeRateRecord)
    (F : Finset String) :
    filter_new_prices (filter_new_prices R E) E = filter_new_prices R E ∧
    filter_new_rates (filter_new_rates S F) F = filter_new_rates S F := by
  constructor
  · simp [filter_new_prices, List.filter_filter]
  · simp [filter_new_rates, List.filter_filter]

end PortfolioUpdater
